import Mathlib

/-!
Verification of the counterfactual-explanation generator for additive
scorecard models (the `optbinning.scorecard.Counterfactual` pipeline).

The repository snapshot ships only the tutorial notebook
`doc/source/tutorials/tutorial_counterfactual_continuous_target.ipynb`;
the generator module itself is not part of the snapshot, so every
definition below is modelled from the specification's description of the
Feature Encoding Layer, Problem Builder, Optimizer Adapter, Diversity
Controller and Post-Processor.
-/

namespace CF

/-- Modelled from the spec: the optimizer adapter's status values
`OPTIMAL`, `FEASIBLE`, `INFEASIBLE`, `UNBOUNDED`, `ERROR`. -/
inductive Status where
  | OPTIMAL
  | FEASIBLE
  | INFEASIBLE
  | UNBOUNDED
  | ERROR
deriving DecidableEq, Repr

/-- Modelled from the spec: the error taxonomy (`EncodingError` for a
degenerate fitted model, `InvalidRequestError` for malformed generation
parameters). -/
inductive CFError where
  | encodingError : String → CFError
  | invalidRequest : String → CFError
deriving DecidableEq, Repr

/-- Modelled from the spec: a bin, carrying a scalar score contribution
and a human-readable boundary/category label. -/
structure BinData where
  score : ℤ
  label : String
deriving DecidableEq, Repr

/-- Modelled from the spec: a feature with its ordered list of bins,
as produced by the Feature Encoding Layer. -/
structure FeatureData where
  name : String
  bins : List BinData
deriving DecidableEq, Repr

/-- Modelled from the spec: the encoded optimization problem data —
per-feature bin score tables, the intercept, and the deterministic
scaling transform from raw score to outcome. -/
structure ProblemData where
  features : List FeatureData
  intercept : ℤ
  scale : ℤ → ℤ

/-- Modelled from the spec: a generation request — target outcome `y`,
outcome kind, requested solution count `n_cf`, `max_changes`, the named
hard-constraint set, per-feature proximity weights, and the combined
objective weights α (proximity) and β (closeness). -/
structure Request where
  y : ℤ
  outcomeType : String
  nCf : ℕ
  maxChanges : ℕ
  hardConstraints : List String
  weights : List ℤ
  alpha : ℤ
  beta : ℤ
deriving DecidableEq, Repr

/-- Modelled from the spec: the closed set of hard-constraint names of
the Problem Builder's constraint table. -/
def knownConstraintNames : List String :=
  ["min_outcome", "max_outcome", "max_changes",
   "diversity_features", "diversity_values"]

/-- Whether a named hard constraint is activated by the request. -/
def hasC (req : Request) (c : String) : Bool :=
  decide (c ∈ req.hardConstraints)

/-- Modelled from the spec: request validation. Building fails with
`InvalidRequestError` exactly when `outcome_type` is unrecognized, when
`max_changes` exceeds the number of available features, or when a
constraint name is unknown. -/
def checkRequest (pd : ProblemData) (req : Request) : Option CFError :=
  if req.outcomeType = "binary" ∨ req.outcomeType = "continuous" then
    if req.maxChanges ≤ pd.features.length then
      if req.hardConstraints.all (fun c => decide (c ∈ knownConstraintNames)) then
        none
      else some (CFError.invalidRequest "unknown hard constraint name")
    else some (CFError.invalidRequest "max_changes exceeds number of features")
  else some (CFError.invalidRequest "unrecognized outcome_type")

/-- All Boolean vectors of a given length: the search space of one
feature's bin selector variables. -/
def boolVecs : ℕ → List (List Bool)
  | 0 => [[]]
  | n + 1 => (boolVecs n).map (fun v => true :: v) ++
             (boolVecs n).map (fun v => false :: v)

/-- Cartesian product of a list of lists: all ways to pick one element
from each. -/
def listProd : List (List α) → List (List α)
  | [] => [[]]
  | l :: ls => l.flatMap (fun a => (listProd ls).map (fun r => a :: r))

/-- The full space of selector matrices: one Boolean selector vector per
feature, one entry per bin. -/
def selectorCandidates (pd : ProblemData) : List (List (List Bool)) :=
  listProd (pd.features.map (fun f => boolVecs f.bins.length))

/-- Index of the bin whose selector is 1 (the first `true`). -/
def selectedIdx (v : List Bool) : ℕ := v.findIdx (fun b => b)

/-- Score contribution of the selected bins of one feature: sum of the
scores whose selector is 1. -/
def binScore : List BinData → List Bool → ℤ
  | [], _ => 0
  | _, [] => 0
  | b :: bs, s :: ss => (if s then b.score else 0) + binScore bs ss

/-- Raw score of a selector matrix: intercept plus the per-feature
selected-bin score contributions. -/
def scoreSum : List FeatureData → List (List Bool) → ℤ
  | [], _ => 0
  | _, [] => 0
  | f :: fs, v :: vs => binScore f.bins v + scoreSum fs vs

/-- Total raw model score of a selector matrix. -/
def totalScore (pd : ProblemData) (x : List (List Bool)) : ℤ :=
  pd.intercept + scoreSum pd.features x

/-- Outcome of a selector matrix: the raw score passed through the
scorecard's scaling transform. -/
def outcomeOf (pd : ProblemData) (x : List (List Bool)) : ℤ :=
  pd.scale (totalScore pd x)

/-- Score of the bin at a given index of a feature's bin table. -/
def binScoreAt (bins : List BinData) (i : ℕ) : ℤ :=
  ((bins.get? i).map BinData.score).getD 0

/-- Raw score of a discrete bin assignment given by indices. -/
def predictScore : List FeatureData → List ℕ → ℤ
  | [], _ => 0
  | _, [] => 0
  | f :: fs, i :: is => binScoreAt f.bins i + predictScore fs is

/-- Modelled from the spec: the underlying model's prediction for a
discrete bin assignment — sum of the chosen bins' score contributions
plus intercept, passed through the scaling transform. -/
def modelPredict (pd : ProblemData) (idxs : List ℕ) : ℤ :=
  pd.scale (pd.intercept + predictScore pd.features idxs)

/-- The discrete bin assignment decoded from a selector matrix. -/
def selectedIdxs (x : List (List Bool)) : List ℕ := x.map selectedIdx

/-- Per-feature changed indicators: 1 iff the selected bin differs from
the query's current bin. -/
def changedFlags (q : List ℕ) (x : List (List Bool)) : List Bool :=
  List.zipWith (fun c v => decide (selectedIdx v ≠ c)) q x

/-- Number of features marked as changed. -/
def numChanges (q : List ℕ) (x : List (List Bool)) : ℕ :=
  (changedFlags q x).count true

/-- Modelled from the spec: the proximity objective — sum over features
of changed indicator times the per-feature distance weight, the weight
defaulting to 1 when not configured. -/
def proximity : List ℤ → List Bool → ℤ
  | _, [] => 0
  | [], b :: bs => (if b then 1 else 0) + proximity [] bs
  | w :: ws, b :: bs => (if b then w else 0) + proximity ws bs

/-- Modelled from the spec: the closeness objective — zero once the
outcome satisfies the target threshold, and a one-sided distance from
`y` otherwise. -/
def closeness (req : Request) (o : ℤ) : ℤ :=
  if "max_outcome" ∈ req.hardConstraints then max 0 (o - req.y)
  else max 0 (req.y - o)

/-- Combined objective `α·proximity + β·closeness`, minimized. -/
def objectiveVal (pd : ProblemData) (q : List ℕ) (req : Request)
    (x : List (List Bool)) : ℤ :=
  req.alpha * proximity req.weights (changedFlags q x) +
    req.beta * closeness req (outcomeOf pd x)

/-- Modelled from the spec: the conjunction of hard constraints on one
solution — the one-hot constraint (exactly one selector per feature is
1), the `max_changes` bound, and the outcome-direction constraints
`min_outcome` / `max_outcome` when activated. -/
def satisfiesHard (pd : ProblemData) (q : List ℕ) (req : Request)
    (x : List (List Bool)) : Bool :=
  x.all (fun v => decide (v.count true = 1)) &&
  decide (numChanges q x ≤ req.maxChanges) &&
  (!(hasC req "min_outcome") || decide (req.y ≤ outcomeOf pd x)) &&
  (!(hasC req "max_outcome") || decide (outcomeOf pd x ≤ req.y))

/-- Modelled from the spec: the Diversity Controller's iterative
exclusion constraints (strategy b) — a candidate is excluded when it
repeats an accepted solution's exact bin assignment or, when
`diversity_features` is active, an accepted solution's changed-feature
set. -/
def excludedBy (q : List ℕ) (req : Request)
    (prev : List (List (List Bool))) (x : List (List Bool)) : Bool :=
  prev.any (fun p =>
    decide (p = x) ||
    (hasC req "diversity_features" && decide (changedFlags q p = changedFlags q x)))

/-- First element minimizing `f`, if any. -/
def argminBy (f : α → ℤ) : List α → Option α
  | [] => none
  | a :: as =>
    match argminBy f as with
    | none => some a
    | some b => if f a ≤ f b then some a else some b

/-- A raw variable assignment returned by the MIP solver: the binary
selector values together with the solver's continuous outcome variable
(which may carry numerical slack). -/
structure SolverAssignment where
  selectors : List (List Bool)
  outcomeVar : ℤ
deriving DecidableEq, Repr

/-- Output of one solver invocation: a status and, for `OPTIMAL` or
`FEASIBLE`, an incumbent variable assignment. -/
structure SolverOutput where
  status : Status
  assignment : Option SolverAssignment
deriving DecidableEq, Repr

/-- Modelled from the spec: the concrete mixed-integer search — filter
the selector space by the hard constraints and the accumulated diversity
exclusions, and return a minimizer of the combined objective, or
`INFEASIBLE` when no candidate remains. -/
def exactSolve (pd : ProblemData) (q : List ℕ) (req : Request)
    (prev : List (List (List Bool))) : SolverOutput :=
  match argminBy (objectiveVal pd q req)
      ((selectorCandidates pd).filter
        (fun x => satisfiesHard pd q req x && !excludedBy q req prev x)) with
  | none => ⟨Status.INFEASIBLE, none⟩
  | some x => ⟨Status.OPTIMAL, some ⟨x, outcomeOf pd x⟩⟩

/-- Modelled from the spec: the Optimizer Adapter's exception barrier —
any solver-level exception is reported as `ERROR` status, never
propagated as a language-level fault. -/
def solveAdapter (r : Except String SolverOutput) : SolverOutput :=
  match r with
  | Except.error _ => ⟨Status.ERROR, none⟩
  | Except.ok o => o

/-- One solver invocation through the adapter. -/
def solve (pd : ProblemData) (q : List ℕ) (req : Request)
    (prev : List (List (List Bool))) : SolverOutput :=
  solveAdapter (Except.ok (exactSolve pd q req prev))

/-- Modelled from the spec: the Diversity Controller's iterative loop —
solve, accept the incumbent when one is returned, add its exclusion
constraints, and repeat up to `n_cf` times; on a solve with no incumbent
stop and keep the solutions found together with the last solver
status. -/
def cfLoop (pd : ProblemData) (q : List ℕ) (req : Request) :
    ℕ → List (List (List Bool)) → Status → List (List (List Bool)) × Status
  | 0, acc, st => (acc, st)
  | Nat.succ n, acc, _ =>
    match (solve pd q req acc).assignment with
    | some a => cfLoop pd q req n (acc ++ [a.selectors]) (solve pd q req acc).status
    | none => (acc, (solve pd q req acc).status)

/-- Sentinel marking "no change" in a displayed solution row. -/
def noChangeMark : String := "-"

/-- Label of the bin at a given index of a feature's bin table. -/
def labelAt (bins : List BinData) (i : ℕ) : String :=
  ((bins.get? i).map BinData.label).getD ""

/-- One display entry: the no-change sentinel when the selected bin is
the query's current bin, the selected bin's human-readable label
otherwise. -/
def displayEntry (c : ℕ) (f : FeatureData) (v : List Bool) : String :=
  if selectedIdx v = c then noChangeMark else labelAt f.bins (selectedIdx v)

/-- Modelled from the spec: a decoded solution — per-feature selectors,
changed indicators, the displayed row, the recomputed outcome, and the
objective breakdown. -/
structure Solution where
  sel : List (List Bool)
  flags : List Bool
  display : List String
  outcome : ℤ
  proximityCost : ℤ
  closenessCost : ℤ
  objectiveValue : ℤ
deriving DecidableEq, Repr

/-- Modelled from the spec: the Post-Processor's decode — identify each
feature's selected bin, record the no-change sentinel or the bin label,
and recompute the outcome by feeding the decoded bin scores back through
the model's scaling transform, ignoring the solver's continuous outcome
variable. -/
def decode (pd : ProblemData) (q : List ℕ) (req : Request)
    (a : SolverAssignment) : Solution :=
  ⟨a.selectors,
   changedFlags q a.selectors,
   List.zipWith (fun (p : ℕ × FeatureData) v => displayEntry p.1 p.2 v)
     (q.zip pd.features) a.selectors,
   outcomeOf pd a.selectors,
   proximity req.weights (changedFlags q a.selectors),
   closeness req (outcomeOf pd a.selectors),
   objectiveVal pd q req a.selectors⟩

/-- Modelled from the spec: the result set — an ordered sequence of
solutions plus the solver status. -/
structure ResultSet where
  solutions : List Solution
  status : Status
deriving DecidableEq, Repr

/-- Modelled from the spec: one `generate` call — validate the request,
run the diversity loop, decode every accepted assignment, and return the
result set with the last solver status. -/
def generate (pd : ProblemData) (q : List ℕ) (req : Request) :
    Except CFError ResultSet :=
  match checkRequest pd req with
  | some e => Except.error e
  | none =>
    let r := cfLoop pd q req req.nCf [] Status.OPTIMAL
    Except.ok ⟨r.1.map (fun x => decode pd q req ⟨x, outcomeOf pd x⟩), r.2⟩

/-- The request with only `max_changes` replaced. -/
def setMaxChanges (req : Request) (m : ℕ) : Request :=
  ⟨req.y, req.outcomeType, req.nCf, m, req.hardConstraints,
   req.weights, req.alpha, req.beta⟩

/-- The feasible region of one request: all selector matrices satisfying
the hard constraints (no diversity exclusions). -/
def feasibleSet (pd : ProblemData) (q : List ℕ) (req : Request) :
    List (List (List Bool)) :=
  (selectorCandidates pd).filter (satisfiesHard pd q req)

/-- Minimum of a list of integers, if nonempty. -/
def listMin : List ℤ → Option ℤ
  | [] => none
  | a :: as =>
    match listMin as with
    | none => some a
    | some b => some (min a b)

/-- Modelled from the spec: the optimal proximity cost of a request —
the proximity of the nearest point of the feasible region. -/
def optimalProximity (pd : ProblemData) (q : List ℕ) (req : Request) :
    Option ℤ :=
  listMin ((feasibleSet pd q req).map
    (fun x => proximity req.weights (changedFlags q x)))

/-- The result set of a call, with a default for the error case. -/
def resultOf (pd : ProblemData) (q : List ℕ) (req : Request) : ResultSet :=
  ((generate pd q req).toOption).getD ⟨[], Status.ERROR⟩

/-- The diversity relation accumulated by strategy (b): two accepted
solutions never share the exact bin assignment and, when
`diversity_features` is active, never share the changed-feature set. -/
def DivRel (q : List ℕ) (req : Request)
    (p x : List (List Bool)) : Prop :=
  p ≠ x ∧
    ("diversity_features" ∈ req.hardConstraints →
      changedFlags q p ≠ changedFlags q x)

/-- Example feature with two bins of scores 0 and 2. -/
def fEx1 : FeatureData := ⟨"f1", [⟨0, "A"⟩, ⟨2, "B"⟩]⟩

/-- Example feature with two bins of scores 1 and 3. -/
def fEx2 : FeatureData := ⟨"f2", [⟨1, "C"⟩, ⟨3, "D"⟩]⟩

/-- Example problem data: two features, zero intercept, identity scaling. -/
def pdEx : ProblemData := ⟨[fEx1, fEx2], 0, fun s => s⟩

/-- Example query: each feature currently in its first bin. -/
def qEx : List ℕ := [0, 0]

/-- Example request targeting outcome at least 3 with `min_outcome`. -/
def reqEx1 : Request := ⟨3, "continuous", 1, 2, ["min_outcome"], [], 1, 1⟩

/-- The solution `generate` produces for `reqEx1` on `pdEx`. -/
def solEx1 : Solution :=
  ⟨[[true, false], [false, true]], [false, true], ["-", "D"], 3, 1, 0, 1⟩

/-- The result set `generate` produces for `reqEx1` on `pdEx`. -/
def rsEx1 : ResultSet := ⟨[solEx1], Status.OPTIMAL⟩

/-- Example request asking for two diverse counterfactuals. -/
def reqEx2 : Request :=
  ⟨10, "continuous", 2, 2, ["diversity_features", "diversity_values"], [], 1, 0⟩

/-- First solution of the diversity batch for `reqEx2`. -/
def solEx2a : Solution :=
  ⟨[[true, false], [true, false]], [false, false], ["-", "-"], 1, 0, 9, 0⟩

/-- Second solution of the diversity batch for `reqEx2`. -/
def solEx2b : Solution :=
  ⟨[[true, false], [false, true]], [false, true], ["-", "D"], 3, 1, 7, 1⟩

/-- The result set `generate` produces for `reqEx2` on `pdEx`. -/
def rsEx2 : ResultSet := ⟨[solEx2a, solEx2b], Status.OPTIMAL⟩

/-- Example request with an unreachable target, making the problem
infeasible under `min_outcome`. -/
def reqEx3 : Request := ⟨100, "continuous", 1, 2, ["min_outcome"], [], 1, 1⟩

/-- Example problem with a single one-bin feature: only one feasible
assignment exists. -/
def pdEx2 : ProblemData := ⟨[⟨"g", [⟨5, "Z"⟩]⟩], 0, fun s => s⟩

/-- Query for `pdEx2`. -/
def qEx2 : List ℕ := [0]

/-- Example request asking for three counterfactuals of `pdEx2`, where
only one distinct solution exists. -/
def reqEx4 : Request := ⟨1, "continuous", 3, 1, [], [], 1, 1⟩

/-- `reqEx1` tightened to at most one change. -/
def reqEx5 : Request := setMaxChanges reqEx1 1

lemma argminBy_mem {f : α → ℤ} :
    ∀ {l : List α} {a : α}, argminBy f l = some a → a ∈ l := by
  intro l
  induction l with
  | nil => intro a h; simp [argminBy] at h
  | cons b bs ih =>
    intro a h
    rw [argminBy] at h
    cases hm : argminBy f bs with
    | none =>
      rw [hm] at h
      change some b = some a at h
      injection h with h
      simp [← h]
    | some c =>
      rw [hm] at h
      change (if f b ≤ f c then some b else some c) = some a at h
      by_cases hle : f b ≤ f c
      · rw [if_pos hle] at h
        injection h with h
        simp [← h]
      · rw [if_neg hle] at h
        injection h with h
        subst h
        exact List.mem_cons_of_mem _ (ih hm)

lemma listMin_eq_none : ∀ {l : List ℤ}, listMin l = none → l = [] := by
  intro l
  cases l with
  | nil => intro _; rfl
  | cons a as =>
    intro h
    rw [listMin] at h
    cases hm : listMin as with
    | none =>
      rw [hm] at h
      exact Option.noConfusion h
    | some b =>
      rw [hm] at h
      exact Option.noConfusion h

lemma listMin_mem : ∀ {l : List ℤ} {v : ℤ}, listMin l = some v → v ∈ l := by
  intro l
  induction l with
  | nil => intro v h; simp [listMin] at h
  | cons a as ih =>
    intro v h
    rw [listMin] at h
    cases hm : listMin as with
    | none =>
      rw [hm] at h
      change some a = some v at h
      injection h with h
      simp [← h]
    | some b =>
      rw [hm] at h
      change some (min a b) = some v at h
      injection h with h
      subst h
      rcases min_cases a b with ⟨he, _⟩ | ⟨he, _⟩
      · rw [he]; exact List.mem_cons_self a as
      · rw [he]; exact List.mem_cons_of_mem a (ih hm)

lemma listMin_le : ∀ {l : List ℤ} {v x : ℤ}, listMin l = some v → x ∈ l → v ≤ x := by
  intro l
  induction l with
  | nil => intro v x h _; simp [listMin] at h
  | cons a as ih =>
    intro v x h hx
    rw [listMin] at h
    cases hm : listMin as with
    | none =>
      rw [hm] at h
      change some a = some v at h
      injection h with h
      have hnil : as = [] := listMin_eq_none hm
      subst hnil
      simp at hx
      subst hx
      exact le_of_eq h.symm
    | some b =>
      rw [hm] at h
      change some (min a b) = some v at h
      injection h with h
      subst h
      rcases List.mem_cons.mp hx with he | ht
      · subst he; exact min_le_left _ _
      · exact le_trans (min_le_right _ _) (ih hm ht)

lemma listMin_of_mem : ∀ {l : List ℤ} {x : ℤ}, x ∈ l → ∃ v, listMin l = some v := by
  intro l
  induction l with
  | nil => intro x h; simp at h
  | cons a as _ =>
    intro x _
    rw [listMin]
    cases listMin as with
    | none => exact ⟨a, rfl⟩
    | some b => exact ⟨min a b, rfl⟩

lemma boolVecs_length : ∀ {n : ℕ} {v : List Bool}, v ∈ boolVecs n → v.length = n := by
  intro n
  induction n with
  | zero => intro v h; simp [boolVecs] at h; simp [h]
  | succ m ih =>
    intro v h
    rw [boolVecs] at h
    rcases List.mem_append.mp h with h' | h' <;>
    · rcases List.mem_map.mp h' with ⟨w, hw, he⟩
      subst he
      simp [ih hw]

lemma listProd_forall2 : ∀ {ls : List (List α)} {x : List α},
    x ∈ listProd ls → List.Forall₂ (fun a l => a ∈ l) x ls := by
  intro ls
  induction ls with
  | nil => intro x h; simp [listProd] at h; simp [h]
  | cons l ls' ih =>
    intro x h
    rw [listProd] at h
    rcases List.mem_flatMap.mp h with ⟨a, ha, hx⟩
    rcases List.mem_map.mp hx with ⟨r, hr, he⟩
    subst he
    exact List.Forall₂.cons ha (ih hr)

lemma selectorCandidates_shape {pd : ProblemData} {x : List (List Bool)}
    (h : x ∈ selectorCandidates pd) :
    List.Forall₂ (fun v (f : FeatureData) => v.length = f.bins.length)
      x pd.features := by
  have h2 := listProd_forall2 h
  rw [List.forall₂_map_right_iff] at h2
  exact h2.imp (fun a b hv => boolVecs_length hv)

lemma binScore_count_zero : ∀ {v : List Bool} (bins : List BinData),
    v.count true = 0 → binScore bins v = 0 := by
  intro v
  induction v with
  | nil => intro bins _; cases bins <;> rfl
  | cons s ss ih =>
    intro bins h
    cases s
    · cases bins with
      | nil => rfl
      | cons b bs =>
        simp [List.count_cons] at h
        simp [binScore, ih bs h]
    · simp [List.count_cons] at h

lemma binScore_oneHot : ∀ {v : List Bool} (bins : List BinData),
    v.count true = 1 → binScore bins v = binScoreAt bins (selectedIdx v) := by
  intro v
  induction v with
  | nil => intro bins h; simp [List.count_nil] at h
  | cons s ss ih =>
    intro bins h
    cases s
    · have h' : ss.count true = 1 := by simpa [List.count_cons] using h
      have hsel : selectedIdx (false :: ss) = selectedIdx ss + 1 := by
        simp [selectedIdx, List.findIdx_cons]
      cases bins with
      | nil => simp [binScore, binScoreAt]
      | cons b bs =>
        simp only [binScore, hsel, if_neg (Bool.false_ne_true)]
        rw [ih bs h']
        simp [binScoreAt]
    · have h' : ss.count true = 0 := by simpa [List.count_cons] using h
      have hsel : selectedIdx (true :: ss) = 0 := by
        simp [selectedIdx, List.findIdx_cons]
      cases bins with
      | nil => simp [binScore, binScoreAt]
      | cons b bs =>
        simp only [binScore, hsel, if_pos rfl]
        rw [binScore_count_zero bs h']
        simp [binScoreAt]

lemma scoreSum_oneHot : ∀ (fs : List FeatureData) (x : List (List Bool)),
    (∀ v ∈ x, v.count true = 1) →
    scoreSum fs x = predictScore fs (selectedIdxs x) := by
  intro fs
  induction fs with
  | nil => intro x _; cases x <;> rfl
  | cons f fs' ih =>
    intro x h
    cases x with
    | nil => rfl
    | cons v vs =>
      have hv : v.count true = 1 := h v (List.mem_cons_self v vs)
      have hvs : ∀ w ∈ vs, w.count true = 1 :=
        fun w hw => h w (List.mem_cons_of_mem v hw)
      simp only [scoreSum, selectedIdxs, List.map_cons, predictScore]
      rw [binScore_oneHot f.bins hv, ih vs hvs]
      rfl

lemma outcomeOf_oneHot {pd : ProblemData} {x : List (List Bool)}
    (h : ∀ v ∈ x, v.count true = 1) :
    outcomeOf pd x = modelPredict pd (selectedIdxs x) := by
  unfold outcomeOf modelPredict totalScore
  rw [scoreSum_oneHot pd.features x h]

lemma satisfiesHard_iff {pd : ProblemData} {q : List ℕ} {req : Request}
    {x : List (List Bool)} :
    satisfiesHard pd q req x = true ↔
      ((∀ v ∈ x, v.count true = 1) ∧
       numChanges q x ≤ req.maxChanges ∧
       ("min_outcome" ∈ req.hardConstraints → req.y ≤ outcomeOf pd x) ∧
       ("max_outcome" ∈ req.hardConstraints → outcomeOf pd x ≤ req.y)) := by
  simp only [satisfiesHard, Bool.and_eq_true, List.all_eq_true, decide_eq_true_eq,
    Bool.or_eq_true, Bool.not_eq_true', decide_eq_false_iff_not, hasC]
  tauto

lemma excludedBy_false_iff {q : List ℕ} {req : Request}
    {prev : List (List (List Bool))} {x : List (List Bool)} :
    excludedBy q req prev x = false ↔ ∀ p ∈ prev, DivRel q req p x := by
  simp only [excludedBy, List.any_eq_false, Bool.or_eq_true, Bool.and_eq_true,
    decide_eq_true_eq, hasC, not_or, not_and, DivRel, ne_eq]

lemma solve_eq (pd : ProblemData) (q : List ℕ) (req : Request)
    (prev : List (List (List Bool))) :
    solve pd q req prev = exactSolve pd q req prev := rfl

lemma exactSolve_assignment {pd : ProblemData} {q : List ℕ} {req : Request}
    {prev : List (List (List Bool))} {a : SolverAssignment}
    (h : (exactSolve pd q req prev).assignment = some a) :
    a.selectors ∈ selectorCandidates pd ∧
      satisfiesHard pd q req a.selectors = true ∧
      excludedBy q req prev a.selectors = false := by
  rw [exactSolve] at h
  cases hm : argminBy (objectiveVal pd q req)
      ((selectorCandidates pd).filter
        (fun x => satisfiesHard pd q req x && !excludedBy q req prev x)) with
  | none =>
    rw [hm] at h
    exact Option.noConfusion h
  | some x =>
    rw [hm] at h
    change some (⟨x, outcomeOf pd x⟩ : SolverAssignment) = some a at h
    injection h with h
    subst h
    have hx := argminBy_mem hm
    rcases List.mem_filter.mp hx with ⟨hmem, hpred⟩
    rw [Bool.and_eq_true] at hpred
    rcases hpred with ⟨hs, hne⟩
    refine ⟨hmem, hs, ?_⟩
    cases hEx : excludedBy q req prev x with
    | false => rfl
    | true => rw [hEx] at hne; exact Bool.noConfusion hne

lemma cfLoop_inv (pd : ProblemData) (q : List ℕ) (req : Request) :
    ∀ (n : ℕ) (acc : List (List (List Bool))) (st : Status),
      (∀ x ∈ acc, x ∈ selectorCandidates pd ∧ satisfiesHard pd q req x = true) →
      List.Pairwise (DivRel q req) acc →
      (∀ x ∈ (cfLoop pd q req n acc st).1,
        x ∈ selectorCandidates pd ∧ satisfiesHard pd q req x = true) ∧
      List.Pairwise (DivRel q req) (cfLoop pd q req n acc st).1 := by
  intro n
  induction n with
  | zero => intro acc st h1 h2; exact ⟨h1, h2⟩
  | succ m ih =>
    intro acc st h1 h2
    rw [cfLoop]
    cases hA : (solve pd q req acc).assignment with
    | none => simp only [hA]; exact ⟨h1, h2⟩
    | some a =>
      simp only [hA]
      rw [solve_eq] at hA
      have hsound := exactSolve_assignment hA
      apply ih
      · intro x hx
        rcases List.mem_append.mp hx with hx' | hx'
        · exact h1 x hx'
        · have : x = a.selectors := by simpa using hx'
          subst this
          exact ⟨hsound.1, hsound.2.1⟩
      · rw [List.pairwise_append]
        refine ⟨h2, List.pairwise_singleton _ _, ?_⟩
        intro p hp b hb
        have : b = a.selectors := by simpa using hb
        subst this
        exact excludedBy_false_iff.mp hsound.2.2 p hp

lemma cfLoop_length (pd : ProblemData) (q : List ℕ) (req : Request) :
    ∀ (n : ℕ) (acc : List (List (List Bool))) (st : Status),
      (cfLoop pd q req n acc st).1.length ≤ acc.length + n := by
  intro n
  induction n with
  | zero => intro acc st; exact Nat.le_refl _
  | succ m ih =>
    intro acc st
    rw [cfLoop]
    cases hA : (solve pd q req acc).assignment with
    | none => simp only [hA]; omega
    | some a =>
      simp only [hA]
      have := ih (acc ++ [a.selectors]) (solve pd q req acc).status
      simp only [List.length_append, List.length_singleton] at this
      omega

lemma generate_ok {pd : ProblemData} {q : List ℕ} {req : Request}
    (h : checkRequest pd req = none) :
    generate pd q req = Except.ok
      ⟨(cfLoop pd q req req.nCf [] Status.OPTIMAL).1.map
          (fun x => decode pd q req ⟨x, outcomeOf pd x⟩),
        (cfLoop pd q req req.nCf [] Status.OPTIMAL).2⟩ := by
  rw [generate, h]

lemma generate_ok_check {pd : ProblemData} {q : List ℕ} {req : Request}
    {rs : ResultSet} (hok : generate pd q req = Except.ok rs) :
    checkRequest pd req = none := by
  cases hc : checkRequest pd req with
  | none => rfl
  | some e =>
    rw [generate, hc] at hok
    exact Except.noConfusion hok

lemma solutions_eq {pd : ProblemData} {q : List ℕ} {req : Request}
    {rs : ResultSet} (hok : generate pd q req = Except.ok rs) :
    rs = ⟨(cfLoop pd q req req.nCf [] Status.OPTIMAL).1.map
            (fun x => decode pd q req ⟨x, outcomeOf pd x⟩),
          (cfLoop pd q req req.nCf [] Status.OPTIMAL).2⟩ := by
  have hc := generate_ok_check hok
  rw [generate_ok hc] at hok
  injection hok with hok
  exact hok.symm

lemma mem_solutions {pd : ProblemData} {q : List ℕ} {req : Request}
    {rs : ResultSet} {s : Solution} (hok : generate pd q req = Except.ok rs)
    (hs : s ∈ rs.solutions) :
    ∃ x, s = decode pd q req ⟨x, outcomeOf pd x⟩ ∧
      x ∈ selectorCandidates pd ∧ satisfiesHard pd q req x = true := by
  rw [solutions_eq hok] at hs
  rcases List.mem_map.mp hs with ⟨x, hx, he⟩
  have hinv := (cfLoop_inv pd q req req.nCf [] Status.OPTIMAL
    (by intro x' hx'; simp at hx') (List.Pairwise.nil)).1 x hx
  exact ⟨x, he.symm, hinv⟩

lemma zipWith_pair_get (g : ℕ × FeatureData → List Bool → String) :
    ∀ (qs : List ℕ) (fs : List FeatureData) (xs : List (List Bool)) (i : ℕ)
      (c : ℕ) (f : FeatureData) (v : List Bool),
      qs.get? i = some c → fs.get? i = some f → xs.get? i = some v →
      (List.zipWith g (qs.zip fs) xs).get? i = some (g (c, f) v) := by
  intro qs
  induction qs with
  | nil => intro fs xs i c f v hc _ _; simp at hc
  | cons a as ih =>
    intro fs xs i c f v hc hf hv
    cases fs with
    | nil => simp at hf
    | cons b bs =>
      cases xs with
      | nil => simp at hv
      | cons w ws =>
        cases i with
        | zero =>
          simp only [List.get?_cons_zero, Option.some.injEq] at hc hf hv
          subst hc; subst hf; subst hv
          rfl
        | succ j =>
          simp only [List.zip_cons_cons, List.zipWith_cons_cons,
            List.get?_cons_succ] at hc hf hv ⊢
          exact ih bs ws j c f v hc hf hv

lemma exactSolve_status {pd : ProblemData} {q : List ℕ} {req : Request}
    {prev : List (List (List Bool))}
    (h : (exactSolve pd q req prev).status = Status.INFEASIBLE) :
    exactSolve pd q req prev = ⟨Status.INFEASIBLE, none⟩ := by
  rw [exactSolve] at h ⊢
  cases hm : argminBy (objectiveVal pd q req)
      ((selectorCandidates pd).filter
        (fun x => satisfiesHard pd q req x && !excludedBy q req prev x)) with
  | none => rfl
  | some x =>
    rw [hm] at h
    exact Status.noConfusion h

lemma checkRequest_none_iff {pd : ProblemData} {req : Request} :
    checkRequest pd req = none ↔
      ((req.outcomeType = "binary" ∨ req.outcomeType = "continuous") ∧
       req.maxChanges ≤ pd.features.length ∧
       ∀ c ∈ req.hardConstraints, c ∈ knownConstraintNames) := by
  rw [checkRequest]
  split_ifs with h1 h2 h3
  · rw [List.all_eq_true] at h3
    simp only [decide_eq_true_eq] at h3
    simp only [h1, h2, true_and]
    constructor
    · intro _; exact h3
    · intro _; trivial
  · simp only [List.all_eq_true, decide_eq_true_eq] at h3
    simp [h1, h2, h3]
  · simp [h1, h2]
  · simp [h1]

lemma checkRequest_some_shape {pd : ProblemData} {req : Request}
    {e : CFError} (h : checkRequest pd req = some e) :
    ∃ m, e = CFError.invalidRequest m := by
  rw [checkRequest] at h
  split_ifs at h <;>
  · injection h with h
    exact ⟨_, h.symm⟩

lemma generate_error_iff {pd : ProblemData} {q : List ℕ} {req : Request} :
    (∃ m, generate pd q req = Except.error (CFError.invalidRequest m)) ↔
      checkRequest pd req ≠ none := by
  cases hc : checkRequest pd req with
  | none => simp [generate_ok (q := q) hc]
  | some e =>
    rcases checkRequest_some_shape hc with ⟨m, hm⟩
    subst hm
    constructor
    · intro _; simp
    · intro _
      refine ⟨m, ?_⟩
      rw [generate, hc]

/-- Claim C1: for every generate call whose hard-constraint set contains
`min_outcome`, every solution of a returned result set with status
`OPTIMAL` or `FEASIBLE` has recomputed outcome at least the request's
target `y`; symmetrically, when `max_outcome` is in the constraint set,
every returned solution's recomputed outcome is at most `y`. -/
theorem cf_outcome_direction (pd : ProblemData) (q : List ℕ) (req : Request)
    (rs : ResultSet) (hok : generate pd q req = Except.ok rs)
    (_hst : rs.status = Status.OPTIMAL ∨ rs.status = Status.FEASIBLE)
    (s : Solution) (hs : s ∈ rs.solutions) :
    ("min_outcome" ∈ req.hardConstraints → req.y ≤ s.outcome) ∧
    ("max_outcome" ∈ req.hardConstraints → s.outcome ≤ req.y) := by
  rcases mem_solutions hok hs with ⟨x, he, _, hsat⟩
  rcases satisfiesHard_iff.mp hsat with ⟨_, _, hmin, hmax⟩
  subst he
  exact ⟨hmin, hmax⟩

/-- Witness for C1 at a concrete problem: the returned solution has
outcome 3 ≥ the target 3 under `min_outcome`. -/
theorem cf_outcome_direction_wit :
    generate pdEx qEx reqEx1 = Except.ok rsEx1 ∧
    (rsEx1.status = Status.OPTIMAL ∨ rsEx1.status = Status.FEASIBLE) ∧
    solEx1 ∈ rsEx1.solutions ∧
    (("min_outcome" ∈ reqEx1.hardConstraints → reqEx1.y ≤ solEx1.outcome) ∧
     ("max_outcome" ∈ reqEx1.hardConstraints → solEx1.outcome ≤ reqEx1.y)) :=
  ⟨rfl, Or.inl rfl, by simp [rsEx1],
   cf_outcome_direction pdEx qEx reqEx1 rsEx1 rfl (Or.inl rfl) solEx1
     (by simp [rsEx1])⟩

/-- Claim C2: every decoded solution's reported outcome is the model's
own prediction for the discrete bin assignment (the decoded bin scores
fed through the scaling transform), and the decoder never reads the
solver's continuous outcome variable. -/
theorem cf_outcome_recomputed (pd : ProblemData) (q : List ℕ) (req : Request)
    (rs : ResultSet) (hok : generate pd q req = Except.ok rs)
    (s : Solution) (hs : s ∈ rs.solutions)
    (x : List (List Bool)) (v w : ℤ) :
    s.outcome = modelPredict pd (selectedIdxs s.sel) ∧
    (decode pd q req ⟨x, v⟩).outcome = (decode pd q req ⟨x, w⟩).outcome := by
  rcases mem_solutions hok hs with ⟨x', he, _, hsat⟩
  rcases satisfiesHard_iff.mp hsat with ⟨h1, _, _, _⟩
  subst he
  refine ⟨?_, rfl⟩
  show outcomeOf pd x' = modelPredict pd (selectedIdxs x')
  exact outcomeOf_oneHot h1

/-- Witness for C2 at a concrete problem: the decoded outcome equals the
model prediction and does not depend on the solver outcome variable. -/
theorem cf_outcome_recomputed_wit :
    generate pdEx qEx reqEx1 = Except.ok rsEx1 ∧
    solEx1 ∈ rsEx1.solutions ∧
    (solEx1.outcome = modelPredict pdEx (selectedIdxs solEx1.sel) ∧
     (decode pdEx qEx reqEx1 ⟨solEx1.sel, 0⟩).outcome =
       (decode pdEx qEx reqEx1 ⟨solEx1.sel, 42⟩).outcome) :=
  ⟨rfl, by simp [rsEx1],
   cf_outcome_recomputed pdEx qEx reqEx1 rsEx1 rfl solEx1 (by simp [rsEx1])
     solEx1.sel 0 42⟩

/-- Claim C3: for every generate call with `n_cf` > 1, if
`diversity_features` is in the hard-constraint set then the
changed-feature sets of the returned batch differ pairwise, and if
`diversity_values` is in the set then the full per-feature bin
assignments differ pairwise. -/
theorem cf_diversity_pairwise (pd : ProblemData) (q : List ℕ) (req : Request)
    (rs : ResultSet) (_hn : 1 < req.nCf)
    (hok : generate pd q req = Except.ok rs) :
    ("diversity_features" ∈ req.hardConstraints →
      List.Pairwise (fun s t : Solution => s.flags ≠ t.flags) rs.solutions) ∧
    ("diversity_values" ∈ req.hardConstraints →
      List.Pairwise (fun s t : Solution => s.sel ≠ t.sel) rs.solutions) := by
  have hrs := solutions_eq hok
  have hpw := (cfLoop_inv pd q req req.nCf [] Status.OPTIMAL
      (by intro x hx; simp at hx) List.Pairwise.nil).2
  subst hrs
  constructor
  · intro hdf
    show List.Pairwise _ (List.map _ _)
    rw [List.pairwise_map]
    refine List.Pairwise.imp ?_ hpw
    intro a b hab hfe
    exact hab.2 hdf hfe
  · intro _
    show List.Pairwise _ (List.map _ _)
    rw [List.pairwise_map]
    refine List.Pairwise.imp ?_ hpw
    intro a b hab hse
    exact hab.1 hse

/-- Witness for C3 at a concrete problem: a diversity batch of two
solutions with pairwise different changed sets and bin assignments. -/
theorem cf_diversity_pairwise_wit :
    1 < reqEx2.nCf ∧
    generate pdEx qEx reqEx2 = Except.ok rsEx2 ∧
    (("diversity_features" ∈ reqEx2.hardConstraints →
        List.Pairwise (fun s t : Solution => s.flags ≠ t.flags)
          rsEx2.solutions) ∧
     ("diversity_values" ∈ reqEx2.hardConstraints →
        List.Pairwise (fun s t : Solution => s.sel ≠ t.sel)
          rsEx2.solutions)) :=
  ⟨by decide, rfl,
   cf_diversity_pairwise pdEx qEx reqEx2 rsEx2 (by decide) rfl⟩

/-- Claim C4: for every generate call and every returned solution, the
number of features marked as changed is at most the request's
`max_changes`. -/
theorem cf_max_changes_bound (pd : ProblemData) (q : List ℕ) (req : Request)
    (rs : ResultSet) (hok : generate pd q req = Except.ok rs)
    (s : Solution) (hs : s ∈ rs.solutions) :
    s.flags.count true ≤ req.maxChanges := by
  rcases mem_solutions hok hs with ⟨x, he, _, hsat⟩
  rcases satisfiesHard_iff.mp hsat with ⟨_, h2, _, _⟩
  subst he
  exact h2

/-- Witness for C4 at a concrete problem: the returned solution changes
one feature, within the bound of 2. -/
theorem cf_max_changes_bound_wit :
    generate pdEx qEx reqEx1 = Except.ok rsEx1 ∧
    solEx1 ∈ rsEx1.solutions ∧
    solEx1.flags.count true ≤ reqEx1.maxChanges :=
  ⟨rfl, by simp [rsEx1],
   cf_max_changes_bound pdEx qEx reqEx1 rsEx1 rfl solEx1 (by simp [rsEx1])⟩

/-- Claim C5: in every returned solution, every feature's selector
vector has exactly one bin selected — never zero and never more than
one. -/
theorem cf_one_hot (pd : ProblemData) (q : List ℕ) (req : Request)
    (rs : ResultSet) (hok : generate pd q req = Except.ok rs)
    (s : Solution) (hs : s ∈ rs.solutions)
    (v : List Bool) (hv : v ∈ s.sel) :
    v.count true = 1 := by
  rcases mem_solutions hok hs with ⟨x, he, _, hsat⟩
  rcases satisfiesHard_iff.mp hsat with ⟨h1, _, _, _⟩
  subst he
  exact h1 v hv

/-- Witness for C5 at a concrete problem: the first feature's selector
vector of the returned solution selects exactly one bin. -/
theorem cf_one_hot_wit :
    generate pdEx qEx reqEx1 = Except.ok rsEx1 ∧
    solEx1 ∈ rsEx1.solutions ∧
    [true, false] ∈ solEx1.sel ∧
    List.count true [true, false] = 1 :=
  ⟨rfl, by simp [rsEx1], by simp [solEx1],
   cf_one_hot pdEx qEx reqEx1 rsEx1 rfl solEx1 (by simp [rsEx1])
     [true, false] (by simp [solEx1])⟩

/-- Claim C6: a solver-level exception is converted by the adapter to
the `ERROR` status rather than propagating, and an `INFEASIBLE` solve
still yields a well-formed, empty result set carrying that status. -/
theorem cf_error_status (pd : ProblemData) (q : List ℕ) (req : Request)
    (e : String) (hc : checkRequest pd req = none) (hn : 1 ≤ req.nCf)
    (hinf : (solve pd q req []).status = Status.INFEASIBLE) :
    solveAdapter (Except.error e) = ⟨Status.ERROR, none⟩ ∧
    generate pd q req = Except.ok ⟨[], Status.INFEASIBLE⟩ := by
  refine ⟨rfl, ?_⟩
  rw [solve_eq] at hinf
  have hE := exactSolve_status hinf
  obtain ⟨n, hn'⟩ : ∃ n, req.nCf = n + 1 := ⟨req.nCf - 1, by omega⟩
  have hL : cfLoop pd q req req.nCf [] Status.OPTIMAL =
      ([], Status.INFEASIBLE) := by
    rw [hn', cfLoop]
    have hA : (solve pd q req []).assignment = none := by
      rw [solve_eq, hE]
    simp only [hA]
    rw [solve_eq, hE]
  rw [generate_ok hc, hL]
  rfl

/-- Witness for C6 at a concrete infeasible problem: the adapter maps an
exception to `ERROR`, and the infeasible call returns an empty result
set with the `INFEASIBLE` status. -/
theorem cf_error_status_wit :
    checkRequest pdEx reqEx3 = none ∧
    1 ≤ reqEx3.nCf ∧
    (solve pdEx qEx reqEx3 []).status = Status.INFEASIBLE ∧
    (solveAdapter (Except.error "adapter-library failure") =
        ⟨Status.ERROR, none⟩ ∧
     generate pdEx qEx reqEx3 = Except.ok ⟨[], Status.INFEASIBLE⟩) :=
  ⟨rfl, by decide, rfl,
   cf_error_status pdEx qEx reqEx3 "adapter-library failure" rfl (by decide)
     rfl⟩

/-- Claim C7: generation raises `InvalidRequestError` exactly when the
outcome type is unrecognized, `max_changes` exceeds the number of
available features, or a hard-constraint name is unknown; the failure
produces no result set. -/
theorem cf_invalid_request_iff (pd : ProblemData) (q : List ℕ)
    (req : Request) :
    (∃ m, generate pd q req = Except.error (CFError.invalidRequest m)) ↔
      (¬(req.outcomeType = "binary" ∨ req.outcomeType = "continuous") ∨
       pd.features.length < req.maxChanges ∨
       ∃ c ∈ req.hardConstraints, c ∉ knownConstraintNames) := by
  rw [generate_error_iff]
  constructor
  · intro h
    by_contra hcon
    push_neg at hcon
    obtain ⟨h1, h2, h3⟩ := hcon
    apply h
    rw [checkRequest_none_iff]
    exact ⟨h1, h2, h3⟩
  · intro h hnone
    rw [checkRequest_none_iff] at hnone
    obtain ⟨g1, g2, g3⟩ := hnone
    rcases h with h | h | h
    · exact h g1
    · omega
    · rcases h with ⟨c, hcm, hcn⟩
      exact hcn (g3 c hcm)

/-- Claim C8: when fewer than `n_cf` distinct feasible solutions exist,
generation does not fail — a validated call always returns the result
set of the solutions found, of length at most `n_cf`, carrying the last
solver status. -/
theorem cf_search_exhausted (pd : ProblemData) (q : List ℕ) (req : Request)
    (hc : checkRequest pd req = none) :
    generate pd q req = Except.ok (resultOf pd q req) ∧
    (resultOf pd q req).solutions.length ≤ req.nCf ∧
    (resultOf pd q req).status =
      (cfLoop pd q req req.nCf [] Status.OPTIMAL).2 := by
  have hg := generate_ok (q := q) hc
  have hr : resultOf pd q req =
      ⟨(cfLoop pd q req req.nCf [] Status.OPTIMAL).1.map
          (fun x => decode pd q req ⟨x, outcomeOf pd x⟩),
        (cfLoop pd q req req.nCf [] Status.OPTIMAL).2⟩ := by
    rw [resultOf, hg]
    rfl
  refine ⟨by rw [hg, hr], ?_, by rw [hr]⟩
  rw [hr]
  show (List.map _ _).length ≤ _
  rw [List.length_map]
  have := cfLoop_length pd q req req.nCf [] Status.OPTIMAL
  simpa using this

/-- Witness for C8 at a concrete problem with a single feasible
solution: asking for three counterfactuals returns the one found,
with the exhaustion status attached. -/
theorem cf_search_exhausted_wit :
    checkRequest pdEx2 reqEx4 = none ∧
    (generate pdEx2 qEx2 reqEx4 = Except.ok (resultOf pdEx2 qEx2 reqEx4) ∧
     (resultOf pdEx2 qEx2 reqEx4).solutions.length ≤ reqEx4.nCf ∧
     (resultOf pdEx2 qEx2 reqEx4).status =
       (cfLoop pdEx2 qEx2 reqEx4 reqEx4.nCf [] Status.OPTIMAL).2) :=
  ⟨rfl, cf_search_exhausted pdEx2 qEx2 reqEx4 rfl⟩

/-- Claim C9: each returned solution is a row with one entry per
feature — the no-change sentinel when the selected bin is the query's
current bin, the selected bin's human-readable label otherwise — plus
the achieved outcome. -/
theorem cf_row_shape (pd : ProblemData) (q : List ℕ) (req : Request)
    (rs : ResultSet) (hok : generate pd q req = Except.ok rs)
    (hq : q.length = pd.features.length)
    (s : Solution) (hs : s ∈ rs.solutions)
    (i c : ℕ) (f : FeatureData) (v : List Bool)
    (hgc : q.get? i = some c) (hgf : pd.features.get? i = some f)
    (hgv : s.sel.get? i = some v) :
    s.display.length = pd.features.length ∧
    s.outcome = outcomeOf pd s.sel ∧
    s.display.get? i = some (if selectedIdx v = c then noChangeMark
      else labelAt f.bins (selectedIdx v)) := by
  rcases mem_solutions hok hs with ⟨x, he, hmem, _⟩
  have hlen : x.length = pd.features.length :=
    (selectorCandidates_shape hmem).length_eq
  subst he
  refine ⟨?_, rfl, ?_⟩
  · show (List.zipWith _ (q.zip pd.features) x).length = _
    rw [List.length_zipWith, List.length_zip, hq, hlen]
    simp
  · exact zipWith_pair_get
      (fun (p : ℕ × FeatureData) v => displayEntry p.1 p.2 v)
      q pd.features x i c f v hgc hgf hgv

/-- Witness for C9 at a concrete problem: the returned row has two
entries, its first feature is unchanged and shown as the sentinel. -/
theorem cf_row_shape_wit :
    generate pdEx qEx reqEx1 = Except.ok rsEx1 ∧
    qEx.length = pdEx.features.length ∧
    solEx1 ∈ rsEx1.solutions ∧
    qEx.get? 0 = some 0 ∧
    pdEx.features.get? 0 = some fEx1 ∧
    solEx1.sel.get? 0 = some [true, false] ∧
    (solEx1.display.length = pdEx.features.length ∧
     solEx1.outcome = outcomeOf pdEx solEx1.sel ∧
     solEx1.display.get? 0 = some (if selectedIdx [true, false] = 0
       then noChangeMark else labelAt fEx1.bins (selectedIdx [true, false]))) :=
  ⟨rfl, rfl, by simp [rsEx1], rfl, rfl, rfl,
   cf_row_shape pdEx qEx reqEx1 rsEx1 rfl rfl solEx1 (by simp [rsEx1])
     0 0 fEx1 [true, false] rfl rfl rfl⟩

/-- Claim C10: for two otherwise identical requests with
`max_changes` m1 < m2, the optimal proximity cost under m1 is at least
the optimal proximity cost under m2 — decreasing `max_changes` never
decreases the optimal proximity cost. -/
theorem cf_monotone_tightening (pd : ProblemData) (q : List ℕ)
    (req : Request) (m2 : ℕ) (hm : req.maxChanges < m2) (v1 v2 : ℤ)
    (h1 : optimalProximity pd q req = some v1)
    (h2 : optimalProximity pd q (setMaxChanges req m2) = some v2) :
    v2 ≤ v1 := by
  have hv1 := listMin_mem h1
  rcases List.mem_map.mp hv1 with ⟨x, hx, he⟩
  rcases List.mem_filter.mp hx with ⟨hmem, hsat⟩
  have hsat2 : satisfiesHard pd q (setMaxChanges req m2) x = true := by
    rw [satisfiesHard_iff] at hsat ⊢
    obtain ⟨ha, hb, hcc, hd⟩ := hsat
    exact ⟨ha, le_trans hb (le_of_lt hm), hcc, hd⟩
  have hx2 : x ∈ feasibleSet pd q (setMaxChanges req m2) :=
    List.mem_filter.mpr ⟨hmem, hsat2⟩
  have hmm : proximity (setMaxChanges req m2).weights (changedFlags q x) ∈
      (feasibleSet pd q (setMaxChanges req m2)).map
        (fun y => proximity (setMaxChanges req m2).weights
          (changedFlags q y)) :=
    List.mem_map_of_mem _ hx2
  have hle := listMin_le h2 hmm
  rw [← he]
  exact hle

/-- Witness for C10 at a concrete problem: with one allowed change the
optimal proximity is 1, with two allowed changes it is still 1, and
1 ≤ 1. -/
theorem cf_monotone_tightening_wit :
    reqEx5.maxChanges < 2 ∧
    optimalProximity pdEx qEx reqEx5 = some 1 ∧
    optimalProximity pdEx qEx (setMaxChanges reqEx5 2) = some 1 ∧
    (1 : ℤ) ≤ 1 :=
  ⟨by decide, rfl, rfl,
   cf_monotone_tightening pdEx qEx reqEx5 2 (by decide) 1 1 rfl rfl⟩

end CF
